import Mathlib

/-!
# Verification of the streaming parquet source
  (crates/polars-pipe/src/executors/sources/parquet.rs)

This file gives a shallow embedding of the streaming parquet source and
proves / refutes the specified properties about it.

Conventions:
* Machine integers (`usize`, `u32`, `IdxSize`) are modelled as `Nat`; the
  counters involved (row counts, chunk indices) never wrap in practice and
  no claim is about wrap-around behaviour.
* Rows are opaque data; we model a row as a `Nat` so that states are
  concrete and decidable.
* Rust's `Range<usize>` iterator (`self.iter`) is modelled as a pair
  `(lo, hi)` of naturals, consumed from the front exactly as `Iterator::next`
  does.
* The batched decoder (`BatchedParquetReader`, not part of the sources under
  verification) is modelled through its interface contract: a reader is the
  list of responses still to be produced by `next_batches`; an empty list
  means the next call returns `None` (exhaustion), and a head element `bs`
  means the next call returns `Some(bs)`.
-/

/-- A decoded row.  The source never inspects row contents, so an opaque
`Nat` is sufficient and keeps everything decidable. -/
abbrev Row : Type := Nat

/-- A columnar record batch: the rows it carries, in file order. -/
abbrev Batch : Type := List Row

/-- `DataChunk` (crate::operators): a batch tagged with its globally
monotone chunk index. -/
structure DataChunk where
  chunk_index : Nat
  data : Batch
deriving DecidableEq, Repr

/-- `SourceResult` (crate::operators): what `get_batches` returns. -/
inductive SourceResult where
  | Finished : SourceResult
  | GotMoreData : List DataChunk → SourceResult
deriving DecidableEq, Repr

/-- `RowIndex`: name and starting offset of the synthesized row-index
column (`file_options.row_index`). -/
structure RowIndex where
  name : String
  offset : Nat
deriving DecidableEq, Repr

/-- Modelled from the spec: the process-wide source-index counter
(`crate::executors::sources::get_source_index`, whose definition is outside
the sources under verification).  §6: "`get_source_index(advance_by)`
returns the current value *before* adding `advance_by`".  We thread the
counter state explicitly: the result is the pre-add value paired with the
post-add counter. -/
def get_source_index (advance_by : Nat) (counter : Nat) : Nat × Nat :=
  (counter, counter + advance_by)

/-! ## Per-file slices (claim C1)

`init_reader_sync` / `init_reader_async` compute, for each file in bind
order, `split_slice_at_file(current_row_offset, n_rows_this_file,
slice_start, slice_end)` where `current_row_offset` is the value of
`processed_rows` *before* the `fetch_add` of this file's row count and
`slice_end = slice_start + slice.1` (parquet.rs:154-171, 223-240). -/

/-- Modelled from the spec: `split_slice_at_file`
(`polars_io::utils::slice::split_slice_at_file`, whose definition is outside
the sources under verification).  §4.A step 8: "split the global slice
against this file's row range `[row_offset_before_file,
row_offset_before_file + n_rows_this_file)`, producing either `None` (file
wholly outside the requested window) or `(local_start, local_length)`". -/
def split_slice_at_file (row_offset n_rows slice_start slice_end : Nat) :
    Option (Nat × Nat) :=
  let lo := max slice_start row_offset
  let hi := min slice_end (row_offset + n_rows)
  if lo < hi then some (lo - row_offset, hi - lo) else none

/-- The rows a bound reader emits from a file, given the per-file slice the
factory installed on it (`reader.with_slice(slice)`).  `none` (file wholly
outside the window) emits nothing; `some (st, ln)` emits the rows at local
positions `[st, st+ln)` (§4.B: "slice has already been applied"). -/
def applySlice (rows : List Row) : Option (Nat × Nat) → List Row
  | none => []
  | some (st, ln) => (rows.drop st).take ln

/-- The rows emitted by the whole scan with a `pre_slice`, file by file in
bind order: the row offset threaded through the calls is exactly the value
of `processed_rows` before each file's `fetch_add` (parquet.rs:155-169). -/
def scanSliced (slice_start slice_end : Nat) :
    List (List Row) → Nat → List Row
  | [], _ => []
  | f :: fs, off =>
      applySlice f (split_slice_at_file off f.length slice_start slice_end)
        ++ scanSliced slice_start slice_end fs (off + f.length)

theorem applySlice_split (f : List Row) (off s e : Nat) :
    applySlice f (split_slice_at_file off f.length s e)
      = (f.drop (s - off)).take (e - max s off) := by
  unfold split_slice_at_file
  by_cases h : max s off < min e (off + f.length)
  · simp only [h, if_true, applySlice]
    have hlo : max s off - off = s - off := by omega
    rw [hlo]
    by_cases he : e ≤ off + f.length
    · have : min e (off + f.length) = e := by omega
      rw [this]
    · have hmin : min e (off + f.length) = off + f.length := by omega
      rw [hmin]
      have hlen : (f.drop (s - off)).length = f.length - (s - off) :=
        List.length_drop _ _
      rw [List.take_of_length_le (by omega), List.take_of_length_le (by omega)]
  · simp only [h, if_false, applySlice]
    by_cases he : e ≤ max s off
    · have : e - max s off = 0 := by omega
      rw [this, List.take_zero]
    · have hdrop : f.length ≤ s - off := by omega
      rw [List.drop_eq_nil_of_le (by omega), List.take_nil]

theorem scanSliced_eq (s e : Nat) (fs : List (List Row)) (off : Nat) :
    scanSliced s e fs off
      = ((fs.flatten).drop (s - off)).take (e - max s off) := by
  induction fs generalizing off with
  | nil => simp [scanSliced]
  | cons f fs ih =>
      rw [scanSliced, ih, applySlice_split]
      rw [List.flatten_cons, List.drop_append_eq_append_drop,
        List.take_append_eq_append_take]
      congr 1
      · have h1 : s - off - f.length = s - (off + f.length) := by omega
        have h2 : (f.drop (s - off)).length = f.length - (s - off) :=
          List.length_drop _ _
        rw [h1, h2]
        congr 1
        omega

/-- The rows the scan emits under `pre_slice = (s, l)`: the per-file slices
are computed against row offsets accumulated in file-index order starting
from zero, with `slice_end = s + l` (parquet.rs:159-169). -/
def emitted_rows_sliced (files : List (List Row)) (s l : Nat) : List Row :=
  scanSliced s (s + l) files 0

/-- C1: for every scan with `pre_slice = (s, l)` over files with total row
count `R` and `s + l ≤ R`, binding each file's reader with the per-file
slice obtained by splitting the global window `[s, s+l)` against that
file's row range makes the rows emitted across the whole scan exactly the
rows at global positions `[s, s+l)`. -/
theorem c1_slice_correctness (files : List (List Row)) (s l : Nat)
    (_h : s + l ≤ (files.flatten).length) :
    emitted_rows_sliced files s l = ((files.flatten).drop s).take l := by
  rw [emitted_rows_sliced, scanSliced_eq]
  have h1 : s - 0 = s := by omega
  have h2 : s + l - max s 0 = l := by omega
  rw [h1, h2]

/-- Witness for C1 at a concrete scan: three files of 4, 3 and 5 rows,
`pre_slice = (5, 4)`. -/
theorem c1_slice_correctness_witness :
    5 + 4 ≤ ([[0, 1, 2, 3], [4, 5, 6], [7, 8, 9, 10, 11]].flatten).length
      ∧ emitted_rows_sliced [[0, 1, 2, 3], [4, 5, 6], [7, 8, 9, 10, 11]] 5 4
          = (([[0, 1, 2, 3], [4, 5, 6], [7, 8, 9, 10, 11]].flatten).drop 5).take 4 :=
  ⟨by decide,
   c1_slice_correctness [[0, 1, 2, 3], [4, 5, 6], [7, 8, 9, 10, 11]] 5 4 (by decide)⟩

/-! ## Row-index offsets (claim C2)

When `row_index = (name, starting_offset)` is set, each reader is bound
with `ri.offset += processed_rows.load()` (parquet.rs:140-143, 203-206),
where the load happens before that file's row count is `fetch_add`ed
(parquet.rs:154-157, 223-226).  With binds serialized in file-index order
(claim C3) the loaded value for file `j` is the sum of the row counts of
files `0..j`. -/

/-- The per-file row-index offsets, binding files in file-index order:
for each file, the offset is `starting_offset + processed_rows` loaded
*before* `processed_rows` is `fetch_add`ed by that file's row count.
Arguments: starting offset, the files' row counts in file-index order, the
current value of `processed_rows`. -/
def rowIndexOffsets (start : Nat) : List Nat → Nat → List Nat
  | [], _ => []
  | n :: ns, processed =>
      (start + processed) :: rowIndexOffsets start ns (processed + n)

/-- The synthesized row-index column over all emitted batches, in emission
order.  Per the decoder contract (modelled from the spec, §3 / §4.B: the
decoder is outside the sources under verification), a reader bound with
row-index offset `o` over a file of `n` rows emits the index values
`[o, o+n)` in order. -/
def rowIndexColumn (start : Nat) : List (List Row) → Nat → List Nat
  | [], _ => []
  | f :: fs, processed =>
      List.range' (start + processed) f.length
        ++ rowIndexColumn start fs (processed + f.length)

theorem rowIndexColumn_eq (start : Nat) (fs : List (List Row)) (p : Nat) :
    rowIndexColumn start fs p = List.range' (start + p) (fs.flatten).length := by
  induction fs generalizing p with
  | nil => simp [rowIndexColumn]
  | cons f fs ih =>
      rw [rowIndexColumn, ih]
      have h1 : start + (p + f.length) = (start + p) + f.length := by omega
      rw [h1]
      have h2 := List.range'_append (start + p) f.length (fs.flatten).length 1
      simp only [Nat.one_mul, Nat.mul_one] at h2
      rw [h2, List.flatten_cons, List.length_append]
      congr 1
      omega

theorem rowIndexOffsets_eq (start : Nat) (ns : List Nat) (p j : Nat)
    (hj : j < ns.length) :
    (rowIndexOffsets start ns p).getD j 0 = start + p + (ns.take j).sum := by
  induction ns generalizing p j with
  | nil => simp at hj
  | cons n ns ih =>
      cases j with
      | zero => simp [rowIndexOffsets]
      | succ j =>
          rw [rowIndexOffsets]
          have := ih (p + n) j (by simpa using Nat.lt_of_succ_lt_succ hj)
          simp only [List.getD_cons_succ, List.take_succ_cons, List.sum_cons]
          rw [this]
          omega

/-- C2: for every scan with `row_index = (name, starting_offset)`, each
file's reader is bound with row-index offset `starting_offset` plus the
value of `processed_rows` loaded before this file's row count is
fetch-added — with serial binds this is `starting_offset` plus the sum of
the row counts of the preceding files — so that the synthesized column over
all emitted batches is exactly the contiguous range
`[starting_offset, starting_offset + emitted_row_count)` with no gaps or
repeats. -/
theorem c2_row_index_monotonic (start : Nat) (files : List (List Row)) :
    rowIndexColumn start files 0 = List.range' start (files.flatten).length
    ∧ ∀ j, j < files.length →
        (rowIndexOffsets start (files.map List.length) 0).getD j 0
          = start + ((files.map List.length).take j).sum := by
  constructor
  · simpa using rowIndexColumn_eq start files 0
  · intro j hj
    have := rowIndexOffsets_eq start (files.map List.length) 0 j (by simpa using hj)
    simpa using this

/-- Witness for C2 at a concrete scan: `starting_offset = 100`, files of
2, 0 and 3 rows. -/
theorem c2_row_index_monotonic_witness :
    rowIndexColumn 100 [[7, 7], [], [9, 9, 9]] 0
        = List.range' 100 ([[7, 7], [], [9, 9, 9]].flatten).length
    ∧ (2 < 3 →
        (rowIndexOffsets 100 ([[7, 7], [], [9, 9, 9]].map List.length) 0).getD 2 0
          = 100 + (([[7, 7], [], [9, 9, 9]].map List.length).take 2).sum) :=
  ⟨(c2_row_index_monotonic 100 [[7, 7], [], [9, 9, 9]]).1,
   fun _ => (c2_row_index_monotonic 100 [[7, 7], [], [9, 9, 9]]).2 2 (by decide)⟩

/-! ## The source state machine

Shallow embedding of `ParquetSource` itself (parquet.rs:34-399).  The
decoder is an oracle `decode : Nat → Reader` giving, for each file index,
the sequence of responses its batched reader will produce; row/batch
content properties are handled by the functional models above. -/

/-- A bound `BatchedParquetReader`, through its `next_batches` contract
(§4.B): the list of responses still to be produced.  `[]` means the next
call returns `None` (exhaustion); a head `bs` means it returns `Some bs`. -/
abbrev Reader : Type := List (List Batch)

/-- The immutable part of the scan (the descriptor fields of
`ParquetSource` that the claims depend on).  `pre_slice` is stored in the
code as `(i64, usize)` with `assert!(slice.0 >= 0)` at bind time; we model
the asserted domain as `Nat × Nat`. -/
structure ScanEnv where
  files : List (List Row)
  decode : Nat → Reader
  pre_slice : Option (Nat × Nat)
  row_index : Option RowIndex
  prefetch_size : Nat
  run_async : Bool

/-- The mutable state of `ParquetSource` (parquet.rs:34-53).  `iter` models
the Rust `Range<usize>` as its `(lo, hi)` bounds; `source_idx` is the
process-wide source-index counter threaded through the state. -/
structure PState where
  batched_readers : List Reader
  iter : Nat × Nat
  processed_rows : Nat
  processed_paths : Nat
  source_idx : Nat
deriving DecidableEq, Repr

/-- `Iterator::next` on a `Range<usize>`. -/
def iterNext : Nat × Nat → Option Nat × (Nat × Nat)
  | (lo, hi) => if lo < hi then (some lo, (lo + 1, hi)) else (none, (lo, hi))

/-- Number of file indices the range iterator still holds. -/
def iterLen : Nat × Nat → Nat
  | (lo, hi) => hi - lo

/-- `num_rows()` of file `i` (parquet.rs:154, 223). -/
def numRows (env : ScanEnv) (i : Nat) : Nat := (env.files.getD i []).length

/-- The slice short-circuit test of `init_reader_sync` (parquet.rs:113-117):
`processed_rows >= slice.0 as usize + slice.1`. -/
def sliceExhausted (env : ScanEnv) (rows : Nat) : Bool :=
  match env.pre_slice with
  | some sl => decide (sl.1 + sl.2 ≤ rows)
  | none => false

/-- `finish_init_reader` (parquet.rs:178-182): push the bound reader to the
back of the queue and count it. -/
def finish_init_reader (s : PState) (r : Reader) : PState :=
  { s with batched_readers := s.batched_readers ++ [r],
           processed_paths := s.processed_paths + 1 }

/-- `init_reader_sync` (parquet.rs:107-176): take the next file index (the
index is consumed *before* the slice short-circuit test); if the slice is
already exhausted, bind nothing; otherwise bind the file's reader,
`fetch_add`ing its row count into `processed_rows`, and push it. -/
def init_reader_sync (env : ScanEnv) (s : PState) : PState :=
  match iterNext s.iter with
  | (none, _) => s
  | (some i, it) =>
      let s1 := { s with iter := it }
      if sliceExhausted env s1.processed_rows then s1
      else
        finish_init_reader
          { s1 with processed_rows := s1.processed_rows + numRows env i }
          (env.decode i)

/-- `init_next_reader` (parquet.rs:56-63): "Don't do this for async as that
would mean we run serially." — a no-op when `run_async` is true. -/
def init_next_reader (env : ScanEnv) (s : PState) : PState :=
  if env.run_async then s else init_reader_sync env s

/-- `init_reader_async` (parquet.rs:187-243), state effect: `fetch_add` the
file's row count and produce the bound reader. -/
def init_reader_async (env : ScanEnv) (i : Nat) (s : PState) :
    PState × Reader :=
  ({ s with processed_rows := s.processed_rows + numRows env i },
   env.decode i)

/-- Binding the selected readers, collecting the results in file-index
order (both `stream::iter(..).then(..).try_collect()` and `try_join_all`
return results in input order; serialization vs parallelism of the binds
is treated by the trace model below). -/
def bindAllAsync (env : ScanEnv) : List Nat → PState → PState × List Reader
  | [], s => (s, [])
  | i :: rest, s =>
      let p1 := init_reader_async env i s
      let p2 := bindAllAsync env rest p1.1
      (p2.1, p1.2 :: p2.2)

/-- `(0..k).zip(&mut self.iter)` (parquet.rs:320-324): consume
`min k (hi - lo)` indices from the front of the range. -/
def iterTakeDrop (k : Nat) : Nat × Nat → List Nat × (Nat × Nat)
  | (lo, hi) => (List.range' lo (min k (hi - lo)), (lo + min k (hi - lo), hi))

/-- `for _ in 0..n { body }` with the bound evaluated once. -/
def loopN (f : α → α) : Nat → α → α
  | 0, s => s
  | n + 1, s => loopN f n (f s)

/-- `prefetch_files` (parquet.rs:307-355).  Async: refill only when at most
2 readers (or none) are queued, binding `prefetch_size - len` further
indices and appending the readers in order.  Sync: run `init_next_reader_sync`
`prefetch_size - len` times. -/
def prefetch_files (env : ScanEnv) (s : PState) : PState :=
  if env.run_async then
    if s.batched_readers.length ≤ 2 ∨ s.batched_readers.isEmpty then
      let td := iterTakeDrop (env.prefetch_size - s.batched_readers.length) s.iter
      let p := bindAllAsync env td.1 { s with iter := td.2 }
      p.2.foldl finish_init_reader p.1
    else s
  else
    loopN (init_reader_sync env) (env.prefetch_size - s.batched_readers.length) s

/-- The well-founded measure for `get_batches`' self-recursion: queued
readers plus remaining file indices. -/
def pMeasure (s : PState) : Nat := s.batched_readers.length + iterLen s.iter

/-- `get_batches` (parquet.rs:359-395), with explicit fuel standing for the
recursion depth: refill; pop the head reader (none ⇒ `Finished`); poll it;
on `None` drop it, maybe bind the next (sync only) and recurse; on
`Some bs` reserve `len bs` chunk indices from the source-index counter,
push the reader back to the front, and return the chunks. -/
def getBatchesF (env : ScanEnv) : Nat → PState → Option (PState × SourceResult)
  | 0, _ => none
  | fuel + 1, s =>
      let s1 := prefetch_files env s
      match s1.batched_readers with
      | [] => some (s1, SourceResult.Finished)
      | reader :: rest =>
          match reader with
          | [] =>
              getBatchesF env fuel
                (init_next_reader env { s1 with batched_readers := rest })
          | batches :: rem =>
              let pr := get_source_index 0 s1.source_idx
              let out := (batches.enum).map
                (fun q => DataChunk.mk (pr.1 + q.1) q.2)
              let counter2 := (get_source_index out.length pr.2).2
              some
                ({ s1 with
                     batched_readers := rem :: rest,
                     source_idx := counter2 },
                 SourceResult.GotMoreData out)

/-- `get_batches` with enough fuel for its recursion (totality is proved
below). -/
def get_batches (env : ScanEnv) (s : PState) : Option (PState × SourceResult) :=
  getBatchesF env (pMeasure s + 1) s

/-- `ParquetSource::new` (parquet.rs:247-305): fresh state over
`0..paths.len()`, then `init_next_reader` — only when `run_async` is true
("Already start downloading when we deal with cloud urls"). -/
def ParquetSource_new (env : ScanEnv) (counter0 : Nat) : PState :=
  let s : PState :=
    { batched_readers := []
      iter := (0, env.files.length)
      processed_rows := 0
      processed_paths := 0
      source_idx := counter0 }
  if env.run_async then init_next_reader env s else s

/-! ### Basic lemmas about the machine's components -/

theorem iterNext_none {p it : Nat × Nat} (h : iterNext p = (none, it)) :
    it = p ∧ iterLen p = 0 := by
  obtain ⟨lo, hi⟩ := p
  unfold iterNext at h
  by_cases hlt : lo < hi
  · simp [hlt] at h
  · simp [hlt] at h
    exact ⟨h.symm, by simp [iterLen]; omega⟩

theorem iterNext_some {p it : Nat × Nat} {i : Nat}
    (h : iterNext p = (some i, it)) : iterLen p = iterLen it + 1 := by
  obtain ⟨lo, hi⟩ := p
  unfold iterNext at h
  by_cases hlt : lo < hi
  · simp [hlt] at h
    rw [← h.2]
    simp [iterLen]
    omega
  · simp [hlt] at h

theorem finish_init_reader_readers (s : PState) (r : Reader) :
    (finish_init_reader s r).batched_readers = s.batched_readers ++ [r] := rfl

theorem finish_init_reader_iter (s : PState) (r : Reader) :
    (finish_init_reader s r).iter = s.iter := rfl


/-- Case analysis for `init_reader_sync`: either the range is exhausted and
nothing happens, or an index is consumed and the slice short-circuit
decides between binding nothing and binding the file's reader. -/
theorem init_reader_sync_cases (env : ScanEnv) (s : PState) :
    (iterLen s.iter = 0 ∧ init_reader_sync env s = s)
    ∨ (∃ i it, iterNext s.iter = (some i, it)
        ∧ ((sliceExhausted env s.processed_rows = true
              ∧ init_reader_sync env s = { s with iter := it })
          ∨ (sliceExhausted env s.processed_rows = false
              ∧ init_reader_sync env s =
                  finish_init_reader
                    { s with iter := it,
                             processed_rows := s.processed_rows + numRows env i }
                    (env.decode i)))) := by
  rcases hn : iterNext s.iter with ⟨o, it⟩
  cases o with
  | none =>
      left
      refine ⟨(iterNext_none hn).2, ?_⟩
      unfold init_reader_sync
      rw [hn]
  | some i =>
      right
      refine ⟨i, it, rfl, ?_⟩
      by_cases hsl : sliceExhausted env s.processed_rows = true
      · left
        refine ⟨hsl, ?_⟩
        unfold init_reader_sync
        rw [hn]
        simp [hsl]
      · right
        simp only [Bool.not_eq_true] at hsl
        refine ⟨hsl, ?_⟩
        unfold init_reader_sync
        rw [hn]
        simp [hsl]

theorem init_reader_sync_source_idx (env : ScanEnv) (s : PState) :
    (init_reader_sync env s).source_idx = s.source_idx := by
  rcases init_reader_sync_cases env s with ⟨_, h⟩ | ⟨i, it, _, ⟨_, h⟩ | ⟨_, h⟩⟩
    <;> rw [h] <;> rfl

theorem init_reader_sync_mu_le (env : ScanEnv) (s : PState) :
    pMeasure (init_reader_sync env s) ≤ pMeasure s := by
  rcases init_reader_sync_cases env s with ⟨_, h⟩ | ⟨i, it, hn, ⟨_, h⟩ | ⟨_, h⟩⟩
  · rw [h]
  · rw [h]
    have hlen := iterNext_some hn
    simp only [pMeasure]
    omega
  · rw [h]
    have hlen := iterNext_some hn
    simp only [pMeasure, finish_init_reader_readers, List.length_append,
      List.length_cons, List.length_nil, finish_init_reader_iter]
    omega

theorem init_reader_sync_len_le (env : ScanEnv) (s : PState) :
    (init_reader_sync env s).batched_readers.length
      ≤ s.batched_readers.length + 1 := by
  rcases init_reader_sync_cases env s with ⟨_, h⟩ | ⟨i, it, _, ⟨_, h⟩ | ⟨_, h⟩⟩
    <;> rw [h] <;> simp [finish_init_reader]

theorem init_reader_sync_len_mono (env : ScanEnv) (s : PState) :
    s.batched_readers.length
      ≤ (init_reader_sync env s).batched_readers.length := by
  rcases init_reader_sync_cases env s with ⟨_, h⟩ | ⟨i, it, _, ⟨_, h⟩ | ⟨_, h⟩⟩
    <;> rw [h] <;> simp [finish_init_reader]

theorem init_reader_sync_processed_mono (env : ScanEnv) (s : PState) :
    s.processed_rows ≤ (init_reader_sync env s).processed_rows := by
  rcases init_reader_sync_cases env s with ⟨_, h⟩ | ⟨i, it, _, ⟨_, h⟩ | ⟨_, h⟩⟩
    <;> rw [h] <;> simp [finish_init_reader]

theorem init_next_reader_source_idx (env : ScanEnv) (s : PState) :
    (init_next_reader env s).source_idx = s.source_idx := by
  unfold init_next_reader
  by_cases h : env.run_async <;> simp [h, init_reader_sync_source_idx]

theorem init_next_reader_mu_le (env : ScanEnv) (s : PState) :
    pMeasure (init_next_reader env s) ≤ pMeasure s := by
  unfold init_next_reader
  by_cases h : env.run_async <;> simp [h, init_reader_sync_mu_le]

theorem init_next_reader_len_le (env : ScanEnv) (s : PState) :
    (init_next_reader env s).batched_readers.length
      ≤ s.batched_readers.length + 1 := by
  unfold init_next_reader
  by_cases h : env.run_async
  · simp [h]
  · simp [h, init_reader_sync_len_le]

theorem bindAllAsync_fst (env : ScanEnv) (idxs : List Nat) (s : PState) :
    (bindAllAsync env idxs s).1.batched_readers = s.batched_readers
    ∧ (bindAllAsync env idxs s).1.iter = s.iter
    ∧ (bindAllAsync env idxs s).1.source_idx = s.source_idx
    ∧ s.processed_rows ≤ (bindAllAsync env idxs s).1.processed_rows := by
  induction idxs generalizing s with
  | nil => exact ⟨rfl, rfl, rfl, Nat.le_refl _⟩
  | cons i rest ih =>
      have h := ih ({ s with processed_rows := s.processed_rows + numRows env i })
      exact ⟨h.1, h.2.1, h.2.2.1,
        Nat.le_trans (Nat.le_add_right _ _) h.2.2.2⟩

theorem bindAllAsync_snd (env : ScanEnv) (idxs : List Nat) (s : PState) :
    (bindAllAsync env idxs s).2 = idxs.map env.decode := by
  induction idxs generalizing s with
  | nil => rfl
  | cons i rest ih =>
      show env.decode i :: (bindAllAsync env rest _).2 = _
      rw [ih]
      rfl

theorem foldl_finish (rs : List Reader) (s : PState) :
    ((rs.foldl finish_init_reader s).batched_readers
        = s.batched_readers ++ rs)
    ∧ (rs.foldl finish_init_reader s).iter = s.iter
    ∧ (rs.foldl finish_init_reader s).source_idx = s.source_idx
    ∧ (rs.foldl finish_init_reader s).processed_rows = s.processed_rows := by
  induction rs generalizing s with
  | nil => simp
  | cons r rest ih =>
      have h := ih (finish_init_reader s r)
      simp only [List.foldl_cons]
      refine ⟨?_, h.2.1, h.2.2.1, h.2.2.2⟩
      rw [h.1, finish_init_reader_readers]
      simp

theorem loopN_init_sync (env : ScanEnv) (n : Nat) (s : PState) :
    (loopN (init_reader_sync env) n s).source_idx = s.source_idx
    ∧ s.processed_rows ≤ (loopN (init_reader_sync env) n s).processed_rows
    ∧ s.batched_readers.length
        ≤ (loopN (init_reader_sync env) n s).batched_readers.length
    ∧ pMeasure (loopN (init_reader_sync env) n s) ≤ pMeasure s
    ∧ (loopN (init_reader_sync env) n s).batched_readers.length
        ≤ s.batched_readers.length + n := by
  induction n generalizing s with
  | zero => exact ⟨rfl, Nat.le_refl _, Nat.le_refl _, Nat.le_refl _, Nat.le_add_right _ _⟩
  | succ n ih =>
      have h := ih (init_reader_sync env s)
      refine ⟨?_, ?_, ?_, ?_, ?_⟩
      · rw [show loopN (init_reader_sync env) (n + 1) s
            = loopN (init_reader_sync env) n (init_reader_sync env s) from rfl]
        rw [h.1, init_reader_sync_source_idx]
      · exact Nat.le_trans (init_reader_sync_processed_mono env s) h.2.1
      · exact Nat.le_trans (init_reader_sync_len_mono env s) h.2.2.1
      · exact Nat.le_trans h.2.2.2.1 (init_reader_sync_mu_le env s)
      · have h1 := h.2.2.2.2
        have h2 := init_reader_sync_len_le env s
        show (loopN (init_reader_sync env) n (init_reader_sync env s)).batched_readers.length ≤ _
        omega

theorem iterTakeDrop_spec (k : Nat) (p : Nat × Nat) :
    (iterTakeDrop k p).1.length = min k (iterLen p)
    ∧ iterLen (iterTakeDrop k p).2 = iterLen p - min k (iterLen p) := by
  obtain ⟨lo, hi⟩ := p
  constructor
  · simp [iterTakeDrop, iterLen]
  · simp [iterTakeDrop, iterLen]
    omega

/-- Combined state effects of `prefetch_files`: it never touches the
source-index counter, never decreases `processed_rows` or the reader queue
length, never increases the measure, and keeps the queue within
`prefetch_size`. -/
theorem prefetch_files_char (env : ScanEnv) (s : PState) :
    (prefetch_files env s).source_idx = s.source_idx
    ∧ s.processed_rows ≤ (prefetch_files env s).processed_rows
    ∧ s.batched_readers.length ≤ (prefetch_files env s).batched_readers.length
    ∧ pMeasure (prefetch_files env s) ≤ pMeasure s
    ∧ (s.batched_readers.length ≤ env.prefetch_size →
        (prefetch_files env s).batched_readers.length ≤ env.prefetch_size) := by
  unfold prefetch_files
  by_cases ha : env.run_async
  · simp only [ha, if_true]
    by_cases hg : s.batched_readers.length ≤ 2 ∨ s.batched_readers.isEmpty
    · simp only [hg, if_true]
      have htd := iterTakeDrop_spec (env.prefetch_size - s.batched_readers.length) s.iter
      set td := iterTakeDrop (env.prefetch_size - s.batched_readers.length) s.iter with htddef
      have hb := bindAllAsync_fst env td.1 { s with iter := td.2 }
      have hbs := bindAllAsync_snd env td.1 { s with iter := td.2 }
      have hf := foldl_finish (bindAllAsync env td.1 { s with iter := td.2 }).2
        (bindAllAsync env td.1 { s with iter := td.2 }).1
      refine ⟨?_, ?_, ?_, ?_, ?_⟩
      · rw [hf.2.2.1, hb.2.2.1]
      · rw [hf.2.2.2]
        exact hb.2.2.2
      · rw [hf.1, hb.1]
        simp
      · simp only [pMeasure]
        rw [hf.1, hb.1, hf.2.1, hb.2.1]
        simp only [List.length_append, hbs, List.length_map]
        have h1 := htd.1
        have h2 := htd.2
        omega
      · intro hp
        rw [hf.1, hb.1]
        simp only [List.length_append, hbs, List.length_map]
        have h1 := htd.1
        omega
    · rw [if_neg hg]
      exact ⟨rfl, Nat.le_refl _, Nat.le_refl _, Nat.le_refl _, fun h => h⟩
  · rw [if_neg ha]
    have h := loopN_init_sync env (env.prefetch_size - s.batched_readers.length) s
    refine ⟨h.1, h.2.1, h.2.2.1, h.2.2.2.1, fun hp => ?_⟩
    have h5 := h.2.2.2.2
    omega

/-! ### Termination and the source-index counter -/

theorem getBatchesF_total (env : ScanEnv) (fuel : Nat) :
    ∀ s : PState, pMeasure s < fuel → (getBatchesF env fuel s).isSome := by
  induction fuel with
  | zero => exact fun s h => absurd h (Nat.not_lt_zero _)
  | succ fuel ih =>
      intro s hs
      have hpm := (prefetch_files_char env s).2.2.2.1
      rcases hr : (prefetch_files env s).batched_readers with _ | ⟨reader, rest⟩
      · simp only [getBatchesF, hr]
        rfl
      · cases reader with
        | nil =>
            simp only [getBatchesF, hr]
            apply ih
            have h1 := init_next_reader_mu_le env
              { batched_readers := rest, iter := (prefetch_files env s).iter,
                processed_rows := (prefetch_files env s).processed_rows,
                processed_paths := (prefetch_files env s).processed_paths,
                source_idx := (prefetch_files env s).source_idx }
            have h2 : pMeasure
                { batched_readers := rest, iter := (prefetch_files env s).iter,
                  processed_rows := (prefetch_files env s).processed_rows,
                  processed_paths := (prefetch_files env s).processed_paths,
                  source_idx := (prefetch_files env s).source_idx : PState } + 1
                = pMeasure (prefetch_files env s) := by
              simp [pMeasure, hr]
              omega
            omega
        | cons batches rem =>
            simp only [getBatchesF, hr]
            rfl

theorem enumFrom_map_add (idx : Nat) (l : List Batch) :
    ∀ k, ((List.enumFrom k l).map fun q => idx + q.1)
      = List.range' (idx + k) l.length := by
  induction l with
  | nil => intro k; rfl
  | cons b bs ih =>
      intro k
      show (idx + k) :: ((List.enumFrom (k + 1) bs).map fun q => idx + q.1)
          = List.range' (idx + k) (bs.length + 1)
      rw [ih (k + 1), List.range', Nat.add_assoc]

theorem enum_map_add (idx : Nat) (l : List Batch) :
    ((l.enum).map fun q => idx + q.1) = List.range' idx l.length := by
  have := enumFrom_map_add idx l 0
  simpa [List.enum] using this

/-- Through any run of `get_batches` (including its self-recursion), the
source-index counter is advanced by exactly the number of chunks returned,
and the returned chunk indices are the contiguous block reserved from the
counter's value at call entry. -/
theorem getBatchesF_counter (env : ScanEnv) (fuel : Nat) :
    ∀ s s1 r, getBatchesF env fuel s = some (s1, r) →
      (∀ out, r = SourceResult.GotMoreData out →
          out.map DataChunk.chunk_index = List.range' s.source_idx out.length
          ∧ s1.source_idx = s.source_idx + out.length)
      ∧ (r = SourceResult.Finished → s1.source_idx = s.source_idx) := by
  induction fuel with
  | zero => intro s s1 r h; exact absurd h (by simp [getBatchesF])
  | succ fuel ih =>
      intro s s1 r h
      have hpre := (prefetch_files_char env s).1
      rcases hr : (prefetch_files env s).batched_readers with _ | ⟨reader, rest⟩
      · simp only [getBatchesF, hr] at h
        obtain ⟨h1, h2⟩ := Prod.mk.injEq .. ▸ Option.some.injEq _ _ ▸ h
        constructor
        · intro out hout
          rw [← h2] at hout
          cases hout
        · intro _
          rw [← h1, hpre]
      · cases reader with
        | nil =>
            simp only [getBatchesF, hr] at h
            have hmid := ih _ _ _ h
            have hsrc : (init_next_reader env
                { prefetch_files env s with batched_readers := rest }).source_idx
                = s.source_idx := by
              rw [init_next_reader_source_idx]
              exact hpre
            rw [hsrc] at hmid
            exact hmid
        | cons batches rem =>
            simp only [getBatchesF, hr, get_source_index] at h
            obtain ⟨h1, h2⟩ := Prod.mk.injEq .. ▸ Option.some.injEq _ _ ▸ h
            constructor
            · intro out hout
              rw [← h2] at hout
              cases hout
              constructor
              · rw [List.map_map]
                have : (DataChunk.chunk_index ∘ fun q : Nat × Batch =>
                    DataChunk.mk ((prefetch_files env s).source_idx + q.1) q.2)
                    = fun q : Nat × Batch => (prefetch_files env s).source_idx + q.1 := rfl
                rw [this, enum_map_add, hpre]
                congr 1
                simp
              · rw [← h1, hpre]
                simp
            · intro hfin
              rw [← h2] at hfin
              cases hfin

/-! ### Claim C8: termination of `get_batches` -/

/-- The condition under which `get_batches` takes its self-recursion
(parquet.rs:369-374): after the refill the head reader's `next_batches`
returns `None`; the reader is dropped, `init_next_reader` may bind the
next file, and `get_batches` restarts on the resulting state. -/
def recursionStep (env : ScanEnv) (s s2 : PState) : Prop :=
  ∃ rest, (prefetch_files env s).batched_readers = [] :: rest
    ∧ s2 = init_next_reader env
        { batched_readers := rest, iter := (prefetch_files env s).iter,
          processed_rows := (prefetch_files env s).processed_rows,
          processed_paths := (prefetch_files env s).processed_paths,
          source_idx := (prefetch_files env s).source_idx }

/-- C8: every call to `get_batches` terminates: the self-recursion taken
when the head reader's `next_batches` returns `None` strictly decreases the
measure "queued readers plus remaining file indices in `iter`", so with
fuel equal to the entry measure plus one the call returns a result. -/
theorem c8_termination (env : ScanEnv) (s : PState) :
    (get_batches env s).isSome
    ∧ ∀ s2, recursionStep env s s2 → pMeasure s2 < pMeasure s := by
  constructor
  · exact getBatchesF_total env _ s (Nat.lt_succ_self _)
  · rintro s2 ⟨rest, hr, hs2⟩
    have hpm := (prefetch_files_char env s).2.2.2.1
    have h1 := init_next_reader_mu_le env
      { batched_readers := rest, iter := (prefetch_files env s).iter,
        processed_rows := (prefetch_files env s).processed_rows,
        processed_paths := (prefetch_files env s).processed_paths,
        source_idx := (prefetch_files env s).source_idx }
    have h2 : pMeasure
        { batched_readers := rest, iter := (prefetch_files env s).iter,
          processed_rows := (prefetch_files env s).processed_rows,
          processed_paths := (prefetch_files env s).processed_paths,
          source_idx := (prefetch_files env s).source_idx : PState } + 1
        = pMeasure (prefetch_files env s) := by
      simp [pMeasure, hr]
      omega
    subst hs2
    omega

/-- A concrete one-file synchronous scan whose only reader is exhausted
immediately, so `get_batches` takes the self-recursion once. -/
def envC8 : ScanEnv :=
  { files := [[5]], decode := fun _ => [], pre_slice := none,
    row_index := none, prefetch_size := 1, run_async := false }

/-- Witness for C8: the recursion step taken from the initial state of
`envC8` strictly decreases the measure, and the call terminates. -/
theorem c8_termination_witness :
    (get_batches envC8 (ParquetSource_new envC8 0)).isSome
    ∧ pMeasure (init_next_reader envC8
        { batched_readers := [],
          iter := (prefetch_files envC8 (ParquetSource_new envC8 0)).iter,
          processed_rows :=
            (prefetch_files envC8 (ParquetSource_new envC8 0)).processed_rows,
          processed_paths :=
            (prefetch_files envC8 (ParquetSource_new envC8 0)).processed_paths,
          source_idx :=
            (prefetch_files envC8 (ParquetSource_new envC8 0)).source_idx })
      < pMeasure (ParquetSource_new envC8 0) :=
  ⟨(c8_termination envC8 (ParquetSource_new envC8 0)).1,
   (c8_termination envC8 (ParquetSource_new envC8 0)).2 _ ⟨[], by decide, rfl⟩⟩

/-! ### Claim C4: contiguous chunk-index blocks -/

/-- C4: whenever `get_batches` returns more-data with `n` batches, the
assigned `chunk_index` values are exactly `idx, idx+1, …, idx+n-1` where
`idx` is the source-index counter's value before the call, and the counter
is advanced by exactly `n`; hence chunk indices are strictly increasing
over the life of the source and contiguous within one returned vector. -/
theorem c4_chunk_indices (env : ScanEnv) (s s1 : PState) (out : List DataChunk)
    (h : get_batches env s = some (s1, SourceResult.GotMoreData out)) :
    out.map DataChunk.chunk_index = List.range' s.source_idx out.length
    ∧ s1.source_idx = s.source_idx + out.length :=
  ((getBatchesF_counter env _ s s1 _ h).1 out rfl)

/-- A concrete one-file synchronous scan whose reader produces one response
of one batch. -/
def envC4 : ScanEnv :=
  { files := [[1, 2]], decode := fun i => if i = 0 then [[[1, 2]]] else [],
    pre_slice := none, row_index := none, prefetch_size := 8,
    run_async := false }

/-- Witness for C4 at `envC4`: one chunk is emitted, carrying index 0, and
the counter moves from 0 to 1. -/
theorem c4_chunk_indices_witness :
    [DataChunk.mk 0 [1, 2]].map DataChunk.chunk_index
        = List.range' (ParquetSource_new envC4 0).source_idx
            [DataChunk.mk 0 [1, 2]].length
    ∧ (PState.mk [[]] (1, 1) 2 1 1).source_idx
        = (ParquetSource_new envC4 0).source_idx
            + [DataChunk.mk 0 [1, 2]].length :=
  c4_chunk_indices envC4 (ParquetSource_new envC4 0)
    (PState.mk [[]] (1, 1) 2 1 1) [DataChunk.mk 0 [1, 2]] (by decide)

/-! ### Claims C9, C10, C5 -/

/-- After construction the reader queue is always empty: the only bind the
constructor attempts (parquet.rs:300-303) goes through `init_next_reader`,
which does nothing when `run_async` is true — and it is called only when
`run_async` is true. -/
theorem ParquetSource_new_readers (env : ScanEnv) (c0 : Nat) :
    (ParquetSource_new env c0).batched_readers = [] := by
  unfold ParquetSource_new init_next_reader
  by_cases h : env.run_async = true <;> simp [h]

/-- One observable transition of the source: a single `get_batches` call
returning any result. -/
def SourceStep (env : ScanEnv) (s s1 : PState) : Prop :=
  ∃ r, get_batches env s = some (s1, r)

/-- The states reachable by constructing the source (with the process
counter at `counter0`) and calling `get_batches` any number of times. -/
def Reachable (env : ScanEnv) (counter0 : Nat) (s : PState) : Prop :=
  Relation.ReflTransGen (SourceStep env) (ParquetSource_new env counter0) s

/-- A `get_batches` call (through all its self-recursions) keeps the
reader queue within `prefetch_size`. -/
theorem getBatchesF_len_le (env : ScanEnv) (fuel : Nat) :
    ∀ s s1 r, s.batched_readers.length ≤ env.prefetch_size →
      getBatchesF env fuel s = some (s1, r) →
      s1.batched_readers.length ≤ env.prefetch_size := by
  induction fuel with
  | zero => intro s s1 r _ h; simp [getBatchesF] at h
  | succ fuel ih =>
      intro s s1 r hlen h
      have hp := (prefetch_files_char env s).2.2.2.2 hlen
      rcases hr : (prefetch_files env s).batched_readers with _ | ⟨reader, rest⟩
      · simp only [getBatchesF, hr] at h
        obtain ⟨h1, _⟩ := Prod.mk.injEq .. ▸ Option.some.injEq _ _ ▸ h
        rw [← h1]
        exact hp
      · cases reader with
        | nil =>
            simp only [getBatchesF, hr] at h
            apply ih _ _ _ _ h
            have := init_next_reader_len_le env
              { batched_readers := rest, iter := (prefetch_files env s).iter,
                processed_rows := (prefetch_files env s).processed_rows,
                processed_paths := (prefetch_files env s).processed_paths,
                source_idx := (prefetch_files env s).source_idx }
            rw [hr] at hp
            simp only [List.length_cons] at hp
            simpa using Nat.le_trans this hp
        | cons batches rem =>
            simp only [getBatchesF, hr] at h
            obtain ⟨h1, _⟩ := Prod.mk.injEq .. ▸ Option.some.injEq _ _ ▸ h
            rw [← h1]
            rw [hr] at hp
            simpa using hp

/-- C9: in every state reachable by constructing the source and calling
`get_batches` any number of times, the reader queue holds at most
`prefetch_size` readers, so the unguarded subtraction
`prefetch_size - len(batched_readers)` computed by `prefetch_files`
(parquet.rs:320, 350) never underflows. -/
theorem c9_queue_bounded (env : ScanEnv) (counter0 : Nat) (s : PState)
    (h : Reachable env counter0 s) :
    s.batched_readers.length ≤ env.prefetch_size := by
  induction h with
  | refl =>
      rw [ParquetSource_new_readers]
      exact Nat.zero_le _
  | tail _ hstep ih =>
      obtain ⟨r, hr⟩ := hstep
      exact getBatchesF_len_le env _ _ _ _ ih hr

/-- A concrete two-file synchronous scan for the C9 witness. -/
def envC9 : ScanEnv :=
  { files := [[3], [4]], decode := fun i => [[[i]]], pre_slice := none,
    row_index := none, prefetch_size := 2, run_async := false }

/-- Witness for C9 at the initial state of `envC9`. -/
theorem c9_queue_bounded_witness :
    (ParquetSource_new envC9 0).batched_readers.length ≤ envC9.prefetch_size :=
  c9_queue_bounded envC9 0 (ParquetSource_new envC9 0) Relation.ReflTransGen.refl

/-- C10: when the head reader's `next_batches` returns `Some []` (an empty
batch list), `get_batches` returns more-data carrying an empty vector (not
finished), the source-index counter is advanced by zero and thus unchanged,
and the same reader is pushed back to the front of `batched_readers` so it
is polled again on the next call. -/
theorem c10_empty_batch_list (env : ScanEnv) (s : PState)
    (rem : Reader) (rest : List Reader)
    (h : (prefetch_files env s).batched_readers = ([] :: rem) :: rest) :
    get_batches env s = some
      ({ batched_readers := rem :: rest, iter := (prefetch_files env s).iter,
         processed_rows := (prefetch_files env s).processed_rows,
         processed_paths := (prefetch_files env s).processed_paths,
         source_idx := (prefetch_files env s).source_idx },
       SourceResult.GotMoreData []) := by
  unfold get_batches
  simp only [getBatchesF, h, get_source_index, List.enum_nil, List.map_nil,
    List.length_nil, Nat.add_zero]

/-- A concrete scan whose first reader's first response is `Some []`. -/
def envC10 : ScanEnv :=
  { files := [[7, 8]],
    decode := fun i => if i = 0 then [[], [[7, 8]]] else [],
    pre_slice := none, row_index := none, prefetch_size := 3,
    run_async := false }

/-- Witness for C10 at `envC10`: the first call returns `GotMoreData []`,
leaves the counter at 0, and re-queues the reader at the front. -/
theorem c10_empty_batch_list_witness :
    get_batches envC10 (ParquetSource_new envC10 0) = some
      ({ batched_readers := [[[7, 8]]] :: [],
         iter := (prefetch_files envC10 (ParquetSource_new envC10 0)).iter,
         processed_rows :=
           (prefetch_files envC10 (ParquetSource_new envC10 0)).processed_rows,
         processed_paths :=
           (prefetch_files envC10 (ParquetSource_new envC10 0)).processed_paths,
         source_idx :=
           (prefetch_files envC10 (ParquetSource_new envC10 0)).source_idx },
       SourceResult.GotMoreData []) :=
  c10_empty_batch_list envC10 (ParquetSource_new envC10 0) [[[7, 8]]] []
    (by decide)

/-- The scan of claim C5: a cloud scan (`run_async = true`) over one
non-empty file. -/
def envC5 : ScanEnv :=
  { files := [[1, 2, 3]], decode := fun _ => [[[1, 2, 3]]],
    pre_slice := none, row_index := none, prefetch_size := 8,
    run_async := true }

/-- C5 (code bug, evaluated at the failing input): with `run_async = true`
and a non-empty source list, the constructor's call to `init_next_reader`
(parquet.rs:300-303, "Already start downloading when we deal with cloud
urls") is a no-op, because `init_next_reader` binds nothing when
`run_async` is true (parquet.rs:56-63).  After construction
`batched_readers` is empty: the first file's reader has *not* been
initialized, contrary to the claim. -/
theorem c5_new_does_not_prefetch :
    envC5.run_async = true ∧ envC5.files ≠ []
    ∧ (ParquetSource_new envC5 0).batched_readers = [] :=
  ⟨rfl, by decide, ParquetSource_new_readers envC5 0⟩

/-! ### Claim C7: the finished condition -/

theorem init_reader_sync_iterLen_zero (env : ScanEnv) (s : PState)
    (h : iterLen s.iter = 0) : init_reader_sync env s = s := by
  rcases init_reader_sync_cases env s with ⟨_, he⟩ | ⟨i, it, hn, ⟨_, _⟩ | ⟨_, _⟩⟩
  · exact he
  · have := iterNext_some hn
    omega
  · have := iterNext_some hn
    omega

theorem loopN_iterLen_zero (env : ScanEnv) (n : Nat) (s : PState)
    (h : iterLen s.iter = 0) : loopN (init_reader_sync env) n s = s := by
  induction n with
  | zero => rfl
  | succ n ih =>
      show loopN (init_reader_sync env) n (init_reader_sync env s) = s
      rw [init_reader_sync_iterLen_zero env s h]
      exact ih

theorem init_reader_sync_sliceExh (env : ScanEnv) (s : PState)
    (h : sliceExhausted env s.processed_rows = true) :
    (init_reader_sync env s).batched_readers = s.batched_readers
    ∧ (init_reader_sync env s).processed_rows = s.processed_rows := by
  rcases init_reader_sync_cases env s with ⟨_, he⟩ | ⟨i, it, _, ⟨_, he⟩ | ⟨hf, _⟩⟩
  · rw [he]
    exact ⟨rfl, rfl⟩
  · rw [he]
    exact ⟨rfl, rfl⟩
  · rw [h] at hf
    cases hf

theorem loopN_sliceExh (env : ScanEnv) (n : Nat) (s : PState)
    (h : sliceExhausted env s.processed_rows = true) :
    (loopN (init_reader_sync env) n s).batched_readers = s.batched_readers
    ∧ (loopN (init_reader_sync env) n s).processed_rows = s.processed_rows := by
  induction n generalizing s with
  | zero => exact ⟨rfl, rfl⟩
  | succ n ih =>
      have h1 := init_reader_sync_sliceExh env s h
      have h2 := ih (init_reader_sync env s) (by rw [h1.2]; exact h)
      show (loopN (init_reader_sync env) n (init_reader_sync env s)).batched_readers = _
        ∧ (loopN (init_reader_sync env) n (init_reader_sync env s)).processed_rows = _
      rw [h2.1, h2.2, h1.1, h1.2]
      exact ⟨rfl, rfl⟩

/-- If a non-trivial run of the sync refill loop fails to grow the queue,
it is because the file range ran out or the slice short-circuit fired. -/
theorem loopN_no_bind (env : ScanEnv) :
    ∀ n s, 1 ≤ n →
      (loopN (init_reader_sync env) n s).batched_readers.length
        ≤ s.batched_readers.length →
      iterLen (loopN (init_reader_sync env) n s).iter = 0
      ∨ sliceExhausted env
          (loopN (init_reader_sync env) n s).processed_rows = true := by
  intro n
  induction n with
  | zero => intro s h; omega
  | succ n ih =>
      intro s _ hlen
      cases n with
      | zero =>
          rcases init_reader_sync_cases env s
            with ⟨hz, he⟩ | ⟨i, it, hn, ⟨hsl, he⟩ | ⟨hsl, he⟩⟩
          · show iterLen (init_reader_sync env s).iter = 0 ∨ _
            rw [he]
            exact Or.inl hz
          · show iterLen (init_reader_sync env s).iter = 0
              ∨ sliceExhausted env (init_reader_sync env s).processed_rows = true
            rw [he]
            exact Or.inr hsl
          · exfalso
            have hl : (init_reader_sync env s).batched_readers.length
                ≤ s.batched_readers.length := hlen
            have : (init_reader_sync env s).batched_readers.length
                = s.batched_readers.length + 1 := by
              rw [he, finish_init_reader_readers]
              simp
            omega
      | succ m =>
          have hmono := (loopN_init_sync env (m + 1) (init_reader_sync env s)).2.2.1
          have hm0 : s.batched_readers.length
              ≤ (init_reader_sync env s).batched_readers.length :=
            init_reader_sync_len_mono env s
          have hlen2 : (loopN (init_reader_sync env) (m + 1)
              (init_reader_sync env s)).batched_readers.length
              ≤ (init_reader_sync env s).batched_readers.length := by
            have : loopN (init_reader_sync env) (m + 2) s
                = loopN (init_reader_sync env) (m + 1) (init_reader_sync env s) := rfl
            rw [this] at hlen
            omega
          have := ih (init_reader_sync env s) (by omega) hlen2
          exact this

/-- A state from which the source can never bind another reader: the queue
is empty and either the prefetch budget is zero, the file range is
exhausted, or (sync path) the slice short-circuit fires forever. -/
def deadState (env : ScanEnv) (s : PState) : Prop :=
  s.batched_readers = []
  ∧ (env.prefetch_size = 0 ∨ iterLen s.iter = 0
      ∨ (env.run_async = false ∧ sliceExhausted env s.processed_rows = true))

/-- If a refill leaves the queue empty, the refilled state is dead. -/
theorem prefetch_empty_dead (env : ScanEnv) (s : PState)
    (h : (prefetch_files env s).batched_readers = []) :
    deadState env (prefetch_files env s) := by
  refine ⟨h, ?_⟩
  have hsre : s.batched_readers = [] := by
    have hm := (prefetch_files_char env s).2.2.1
    rw [h] at hm
    simpa using hm
  unfold prefetch_files at h ⊢
  by_cases ha : env.run_async = true
  · rw [if_pos ha] at h ⊢
    have hg : s.batched_readers.length ≤ 2 ∨ s.batched_readers.isEmpty = true := by
      rw [hsre]
      exact Or.inl (by simp)
    rw [if_pos hg] at h ⊢
    have htd := iterTakeDrop_spec
      (env.prefetch_size - s.batched_readers.length) s.iter
    set td := iterTakeDrop (env.prefetch_size - s.batched_readers.length) s.iter
    have hb := bindAllAsync_fst env td.1 { s with iter := td.2 }
    have hbs := bindAllAsync_snd env td.1 { s with iter := td.2 }
    have hf := foldl_finish (bindAllAsync env td.1 { s with iter := td.2 }).2
      (bindAllAsync env td.1 { s with iter := td.2 }).1
    rw [hf.1, hb.1, hbs] at h
    have hnil : td.1 = [] := by
      rcases List.append_eq_nil.mp h with ⟨_, hmap⟩
      exact List.map_eq_nil.mp hmap
    have hlen0 : min (env.prefetch_size - s.batched_readers.length)
        (iterLen s.iter) = 0 := by
      rw [← htd.1, hnil]
      rfl
    have hit : iterLen ((bindAllAsync env td.1 { s with iter := td.2 }).2.foldl
        finish_init_reader
        (bindAllAsync env td.1 { s with iter := td.2 }).1).iter
        = iterLen s.iter := by
      rw [hf.2.1, hb.2.1]
      show iterLen td.2 = _
      rw [htd.2, hlen0]
      omega
    rw [hit]
    simp only [hsre, List.length_nil, Nat.sub_zero] at hlen0
    rcases Nat.min_eq_zero_iff.mp hlen0 with h0 | h0
    · exact Or.inl h0
    · exact Or.inr (Or.inl h0)
  · rw [if_neg ha] at h ⊢
    rcases Nat.eq_zero_or_pos (env.prefetch_size - s.batched_readers.length)
      with h0 | h0
    · left
      rw [hsre] at h0
      simpa using h0
    · right
      have := loopN_no_bind env (env.prefetch_size - s.batched_readers.length) s
        h0 (by rw [h]; simp)
      rcases this with h1 | h1
      · exact Or.inl h1
      · exact Or.inr ⟨by simpa using ha, h1⟩

/-- A refill from a dead state leaves the queue empty. -/
theorem dead_prefetch (env : ScanEnv) (s : PState) (hd : deadState env s) :
    (prefetch_files env s).batched_readers = [] := by
  obtain ⟨hre, hcase⟩ := hd
  unfold prefetch_files
  by_cases ha : env.run_async = true
  · rw [if_pos ha]
    have hg : s.batched_readers.length ≤ 2 ∨ s.batched_readers.isEmpty = true := by
      rw [hre]
      exact Or.inl (by simp)
    rw [if_pos hg]
    have htd := iterTakeDrop_spec
      (env.prefetch_size - s.batched_readers.length) s.iter
    set td := iterTakeDrop (env.prefetch_size - s.batched_readers.length) s.iter
    have hb := bindAllAsync_fst env td.1 { s with iter := td.2 }
    have hbs := bindAllAsync_snd env td.1 { s with iter := td.2 }
    have hf := foldl_finish (bindAllAsync env td.1 { s with iter := td.2 }).2
      (bindAllAsync env td.1 { s with iter := td.2 }).1
    rw [hf.1, hb.1, hbs]
    have hnil : td.1 = [] := by
      have : td.1.length = 0 := by
        rw [htd.1, hre]
        rcases hcase with h0 | h0 | h0
        · simp [h0]
        · simp [h0]
        · rw [h0.1] at ha
          cases ha
      exact List.length_eq_zero.mp this
    rw [hre, hnil]
    rfl
  · rw [if_neg ha]
    rcases hcase with h0 | h0 | h0
    · have hz : env.prefetch_size - s.batched_readers.length = 0 := by omega
      rw [hz]
      exact hre
    · rw [loopN_iterLen_zero env _ s h0]
      exact hre
    · rw [(loopN_sliceExh env _ s h0.2).1]
      exact hre

/-- Any run of `get_batches` that returns `Finished` ends in a dead state
with an empty queue. -/
theorem getBatchesF_finished_dead (env : ScanEnv) (fuel : Nat) :
    ∀ s s1, getBatchesF env fuel s = some (s1, SourceResult.Finished) →
      s1.batched_readers = [] ∧ deadState env s1 := by
  induction fuel with
  | zero => intro s s1 h; simp [getBatchesF] at h
  | succ fuel ih =>
      intro s s1 h
      rcases hr : (prefetch_files env s).batched_readers with _ | ⟨reader, rest⟩
      · simp only [getBatchesF, hr] at h
        obtain ⟨h1, _⟩ := Prod.mk.injEq .. ▸ Option.some.injEq _ _ ▸ h
        rw [← h1]
        exact ⟨hr, prefetch_empty_dead env s hr⟩
      · cases reader with
        | nil =>
            simp only [getBatchesF, hr] at h
            exact ih _ _ h
        | cons batches rem =>
            simp only [getBatchesF, hr] at h
            obtain ⟨_, h2⟩ := Prod.mk.injEq .. ▸ Option.some.injEq _ _ ▸ h
            cases h2

/-- C7 (amended): a `get_batches` call returns `finished` precisely when
the refill of its final recursive invocation leaves `batched_readers`
empty — `iter` need *not* be exhausted then (see the counterexample) — and
once `finished` has been returned every subsequent call returns `finished`
again. -/
theorem c7_finished_behavior (env : ScanEnv) (s : PState) :
    ((prefetch_files env s).batched_readers = [] →
        get_batches env s = some (prefetch_files env s, SourceResult.Finished))
    ∧ (∀ s1, get_batches env s = some (s1, SourceResult.Finished) →
        s1.batched_readers = []
        ∧ get_batches env s1
            = some (prefetch_files env s1, SourceResult.Finished)) := by
  constructor
  · intro h
    unfold get_batches
    simp only [getBatchesF, h]
  · intro s1 h
    have hd := getBatchesF_finished_dead env _ s s1 h
    have hp := dead_prefetch env s1 hd.2
    refine ⟨hd.1, ?_⟩
    unfold get_batches
    simp only [getBatchesF, hp]

/-- The scan of the C7 counterexample: four one-row files, a synchronous
scan with `pre_slice = (0, 1)` and `prefetch_size = 1`. -/
def envC7 : ScanEnv :=
  { files := [[0], [1], [2], [3]], decode := fun _ => [[[0]]],
    pre_slice := some (0, 1), row_index := none, prefetch_size := 1,
    run_async := false }

/-- The state of the `envC7` scan after its first `get_batches` call. -/
def c7stateA : PState :=
  { batched_readers := [[]], iter := (1, 4), processed_rows := 1,
    processed_paths := 1, source_idx := 1 }

/-- Counterexample to C7 as stated: on the `envC7` scan the second
`get_batches` call returns `finished` while `iter` still holds file index
3 after the final refill — the slice short-circuit consumes indices
without binding, so "finished" does not coincide with "`iter` empty and
`batched_readers` empty". -/
theorem c7_finished_iter_nonempty :
    get_batches envC7 (ParquetSource_new envC7 0)
        = some (c7stateA, SourceResult.GotMoreData [DataChunk.mk 0 [0]])
    ∧ get_batches envC7 c7stateA
        = some ({ batched_readers := [], iter := (3, 4), processed_rows := 1,
                  processed_paths := 1, source_idx := 1 },
                SourceResult.Finished)
    ∧ iterLen (3, 4) ≠ 0 :=
  ⟨by decide, by decide, by decide⟩

/-- Witness for the amended C7 on the `envC7` scan, at the state reached
after the first call. -/
theorem c7_finished_behavior_witness :
    ({ batched_readers := [], iter := (3, 4), processed_rows := 1,
       processed_paths := 1, source_idx := 1 } : PState).batched_readers = []
    ∧ get_batches envC7
        { batched_readers := [], iter := (3, 4), processed_rows := 1,
          processed_paths := 1, source_idx := 1 }
        = some (prefetch_files envC7
            { batched_readers := [], iter := (3, 4), processed_rows := 1,
              processed_paths := 1, source_idx := 1 },
            SourceResult.Finished) :=
  (c7_finished_behavior envC7 c7stateA).2
    { batched_readers := [], iter := (3, 4), processed_rows := 1,
      processed_paths := 1, source_idx := 1 }
    (by decide)

/-! ### Claim C3: serial vs concurrent binding in the async refill -/

/-- An event in the binding schedule of an async refill: the bind future of
file `i` starts / completes.  The `fetch_add` of `processed_rows` for a
file happens inside its bind, before the completion event. -/
inductive BindEvent where
  | started (i : Nat) : BindEvent
  | ended (i : Nat) : BindEvent
deriving DecidableEq, Repr

/-- `needs_exact_processed_rows_count` (parquet.rs:327-328):
`pre_slice.is_some() || row_index.is_some()`. -/
def needs_exact_processed_rows_count (env : ScanEnv) : Bool :=
  env.pre_slice.isSome || env.row_index.isSome

/-- The event trace of binding readers strictly serially — one future
awaited to completion before the next starts
(`stream::iter(init_iter).then(|x| x).try_collect()`, parquet.rs:332-337). -/
def serialBindTrace : List Nat → List BindEvent
  | [] => []
  | i :: rest =>
      BindEvent.started i :: BindEvent.ended i :: serialBindTrace rest

/-- How many binds are in flight after an event sequence. -/
def bindsInFlight (t : List BindEvent) : Nat :=
  t.countP (fun e => match e with | BindEvent.started _ => true | _ => false)
    - t.countP (fun e => match e with | BindEvent.ended _ => true | _ => false)

/-- The file indices in the order their binds complete (equivalently, the
order in which their `processed_rows` fetch-adds become visible). -/
def completionOrder (t : List BindEvent) : List Nat :=
  t.filterMap (fun e => match e with | BindEvent.ended i => some i | _ => none)

/-- Modelled from the spec: the bind schedule of one async refill
(parquet.rs:330-342; the future-combinator semantics live outside the
sources under verification).  When slice or row-index accuracy is needed
the selected readers are bound serially; otherwise they are bound
concurrently (`try_join_all`) and the event trace may be any interleaving
`sched` of the binds. -/
def asyncBindTrace (env : ScanEnv) (idxs : List Nat)
    (sched : List BindEvent) : List BindEvent :=
  if needs_exact_processed_rows_count env then serialBindTrace idxs else sched

theorem bindsInFlight_serial_le_one (idxs : List Nat) :
    ∀ n, bindsInFlight ((serialBindTrace idxs).take n) ≤ 1 := by
  induction idxs with
  | nil => intro n; simp [serialBindTrace, bindsInFlight]
  | cons i rest ih =>
      intro n
      match n with
      | 0 => simp [bindsInFlight]
      | 1 => simp [serialBindTrace, bindsInFlight, List.countP_cons]
      | Nat.succ (Nat.succ m) =>
          have := ih m
          simp only [serialBindTrace, List.take_succ_cons, bindsInFlight,
            List.countP_cons] at *
          omega

theorem completionOrder_serial (idxs : List Nat) :
    completionOrder (serialBindTrace idxs) = idxs := by
  induction idxs with
  | nil => rfl
  | cons i rest ih =>
      simp only [serialBindTrace, completionOrder, List.filterMap_cons] at *
      rw [ih]

/-- C3: in every async refill, if `pre_slice` or `row_index` is set the
selected readers are bound strictly serially — the bind trace is the serial
trace, in which at most one bind is in flight at any time and binds
complete (and hence `processed_rows` is fetch-added) in file-index order —
while if neither is set the binds follow the concurrent schedule; in both
cases the selected indices are strictly increasing file indices taken from
the front of `iter`, and the resulting readers are appended to
`batched_readers` in exactly that order. -/
theorem c3_serial_binding (env : ScanEnv) (s : PState)
    (sched : List BindEvent) (idxs : List Nat)
    (ha : env.run_async = true)
    (hg : s.batched_readers.length ≤ 2 ∨ s.batched_readers.isEmpty = true)
    (hidx : idxs
      = (iterTakeDrop (env.prefetch_size - s.batched_readers.length) s.iter).1) :
    (needs_exact_processed_rows_count env = true →
        asyncBindTrace env idxs sched = serialBindTrace idxs
        ∧ (∀ n, bindsInFlight ((asyncBindTrace env idxs sched).take n) ≤ 1)
        ∧ completionOrder (asyncBindTrace env idxs sched) = idxs)
    ∧ (needs_exact_processed_rows_count env = false →
        asyncBindTrace env idxs sched = sched)
    ∧ (prefetch_files env s).batched_readers
        = s.batched_readers ++ idxs.map env.decode
    ∧ List.Pairwise (· < ·) idxs := by
  refine ⟨?_, ?_, ?_, ?_⟩
  · intro hex
    rw [asyncBindTrace, if_pos hex]
    exact ⟨rfl, bindsInFlight_serial_le_one idxs, completionOrder_serial idxs⟩
  · intro hex
    rw [asyncBindTrace, if_neg (by simp [hex])]
  · unfold prefetch_files
    rw [if_pos ha, if_pos hg]
    set td := iterTakeDrop (env.prefetch_size - s.batched_readers.length) s.iter
    have hb := bindAllAsync_fst env td.1 { s with iter := td.2 }
    have hbs := bindAllAsync_snd env td.1 { s with iter := td.2 }
    have hf := foldl_finish (bindAllAsync env td.1 { s with iter := td.2 }).2
      (bindAllAsync env td.1 { s with iter := td.2 }).1
    rw [hf.1, hb.1, hbs, hidx]
  · rw [hidx]
    obtain ⟨lo, hi⟩ := s.iter
    show ((List.range' lo _).Pairwise (· < ·))
    have := List.pairwise_lt_range'
      lo (min (env.prefetch_size - s.batched_readers.length) (hi - lo)) 1
    simpa using this

/-- A concrete async scan with a slice, for the C3 witness. -/
def envC3 : ScanEnv :=
  { files := [[1], [2], [3]], decode := fun i => [[[i]]],
    pre_slice := some (0, 2), row_index := none, prefetch_size := 2,
    run_async := true }

/-- Witness for C3 on `envC3` from the initial state: the two selected
readers (files 0 and 1) are bound serially and appended in order. -/
theorem c3_serial_binding_witness :
    (needs_exact_processed_rows_count envC3 = true →
        asyncBindTrace envC3 [0, 1] [] = serialBindTrace [0, 1]
        ∧ (∀ n, bindsInFlight ((asyncBindTrace envC3 [0, 1] []).take n) ≤ 1)
        ∧ completionOrder (asyncBindTrace envC3 [0, 1] []) = [0, 1])
    ∧ (needs_exact_processed_rows_count envC3 = false →
        asyncBindTrace envC3 [0, 1] [] = [])
    ∧ (prefetch_files envC3 (ParquetSource_new envC3 0)).batched_readers
        = (ParquetSource_new envC3 0).batched_readers
            ++ [0, 1].map envC3.decode
    ∧ List.Pairwise (· < ·) [0, 1] :=
  c3_serial_binding envC3 (ParquetSource_new envC3 0) [] [0, 1] rfl
    (Or.inl (by decide)) (by decide)

/-! ### Claim C6: error handling in the sync binding path -/

/-- The error kinds the sync binding path can return. -/
inductive PolarsErrKind where
  | nyi : PolarsErrKind
  | schemaMismatch : PolarsErrKind
deriving DecidableEq, Repr

/-- The outcome of running fallible Rust code: a value, a returned `Err`,
or a panic (`unwrap` on a failed operation), which aborts rather than
returning to the caller. -/
inductive RunResult (α : Type) where
  | ok (a : α) : RunResult α
  | err (e : PolarsErrKind) : RunResult α
  | panic : RunResult α
deriving DecidableEq, Repr

/-- Which of the underlying fallible operations of the sync binding path
succeed, per file index. -/
structure SyncIOEnv where
  sources_are_paths : Bool
  open_ok : Nat → Bool
  projection_ok : Nat → Bool
  num_rows_ok : Nat → Bool
  num_rows : Nat → Nat
  pre_slice : Option (Nat × Nat)

/-- The fallible tail of `init_reader_sync` once an index `i` has been
taken, in source order (parquet.rs:119-173): `prepare_init_reader`
`?`-propagates `nyi` when the sources are not paths (parquet.rs:80-83);
`std::fs::File::open(path).unwrap()` panics on failure (parquet.rs:124);
`with_arrow_schema_projection(..)?` propagates a schema error
(parquet.rs:134-139); `reader.num_rows().unwrap()` panics on failure
(parquet.rs:154); then the row count is fetch-added.  The result carries
the new iterator, the new `processed_rows`, and whether a reader was
bound. -/
def bind_file_f (env : SyncIOEnv) (i : Nat) (it : Nat × Nat)
    (processed_rows : Nat) : RunResult ((Nat × Nat) × Nat × Bool) :=
  if env.sources_are_paths = false then RunResult.err PolarsErrKind.nyi
  else if env.open_ok i = false then RunResult.panic
  else if env.projection_ok i = false then
    RunResult.err PolarsErrKind.schemaMismatch
  else if env.num_rows_ok i = false then RunResult.panic
  else RunResult.ok (it, processed_rows + env.num_rows i, true)

/-- `init_reader_sync` (parquet.rs:107-176) with its fallible operations
made explicit: consume the next index (none ⇒ benign return), apply the
slice short-circuit, then run the fallible binding tail. -/
def init_reader_sync_f (env : SyncIOEnv) (iter : Nat × Nat)
    (processed_rows : Nat) : RunResult ((Nat × Nat) × Nat × Bool) :=
  match iterNext iter with
  | (none, _) => RunResult.ok (iter, processed_rows, false)
  | (some i, it) =>
      match env.pre_slice with
      | some sl =>
          if sl.1 + sl.2 ≤ processed_rows then
            RunResult.ok (it, processed_rows, false)
          else bind_file_f env i it processed_rows
      | none => bind_file_f env i it processed_rows

/-- The environment of the C6 counterexample: opening file 0 fails. -/
def envC6open : SyncIOEnv :=
  { sources_are_paths := true, open_ok := fun _ => false,
    projection_ok := fun _ => true, num_rows_ok := fun _ => true,
    num_rows := fun _ => 3, pre_slice := none }

/-- The second C6 counterexample environment: `num_rows()` fails. -/
def envC6rows : SyncIOEnv :=
  { sources_are_paths := true, open_ok := fun _ => true,
    projection_ok := fun _ => true, num_rows_ok := fun _ => false,
    num_rows := fun _ => 3, pre_slice := none }

/-- Counterexample to C6 as stated: in the sync path a failure of
`File::open` (and likewise of `num_rows()`) is a panic — `.unwrap()` at
parquet.rs:124 and parquet.rs:154 — not an `Err` surfaced to the caller of
`get_batches`. -/
theorem c6_sync_unwrap_panics :
    init_reader_sync_f envC6open (0, 1) 0 = RunResult.panic
    ∧ init_reader_sync_f envC6rows (0, 1) 0 = RunResult.panic :=
  ⟨rfl, rfl⟩

/-- C6 (amended): in the sync binding path, a failing `prepare_init_reader`
(non-path sources) or projection validation is surfaced as `Err`, whereas a
failure to open the file at `paths[i]` or a failure of `num_rows()` causes
a panic, not an `Err`. -/
theorem c6_sync_error_paths (env : SyncIOEnv) (i : Nat) (iter it : Nat × Nat)
    (rows : Nat) (hn : iterNext iter = (some i, it))
    (hsl : ∀ sl, env.pre_slice = some sl → rows < sl.1 + sl.2) :
    (env.sources_are_paths = false →
        init_reader_sync_f env iter rows = RunResult.err PolarsErrKind.nyi)
    ∧ (env.sources_are_paths = true → env.open_ok i = false →
        init_reader_sync_f env iter rows = RunResult.panic)
    ∧ (env.sources_are_paths = true → env.open_ok i = true →
        env.projection_ok i = false →
        init_reader_sync_f env iter rows
          = RunResult.err PolarsErrKind.schemaMismatch)
    ∧ (env.sources_are_paths = true → env.open_ok i = true →
        env.projection_ok i = true → env.num_rows_ok i = false →
        init_reader_sync_f env iter rows = RunResult.panic) := by
  have hbody : init_reader_sync_f env iter rows = bind_file_f env i it rows := by
    unfold init_reader_sync_f
    rw [hn]
    rcases hps : env.pre_slice with _ | sl
    · rfl
    · have hlt := hsl sl hps
      show (if sl.1 + sl.2 ≤ rows then RunResult.ok (it, rows, false)
            else bind_file_f env i it rows) = bind_file_f env i it rows
      rw [if_neg (by omega)]
  refine ⟨?_, ?_, ?_, ?_⟩
  · intro h1
    rw [hbody]
    unfold bind_file_f
    rw [if_pos h1]
  · intro h1 h2
    rw [hbody]
    unfold bind_file_f
    rw [if_neg (by simp [h1]), if_pos h2]
  · intro h1 h2 h3
    rw [hbody]
    unfold bind_file_f
    rw [if_neg (by simp [h1]), if_neg (by simp [h2]), if_pos h3]
  · intro h1 h2 h3 h4
    rw [hbody]
    unfold bind_file_f
    rw [if_neg (by simp [h1]), if_neg (by simp [h2]),
      if_neg (by simp [h3]), if_pos h4]

/-- The environment of the C6 witness: sources are in-memory buffers. -/
def envC6buf : SyncIOEnv :=
  { sources_are_paths := false, open_ok := fun _ => true,
    projection_ok := fun _ => false, num_rows_ok := fun _ => true,
    num_rows := fun _ => 3, pre_slice := some (0, 5) }

/-- Witness for the amended C6 on `envC6buf` at file index 0. -/
theorem c6_sync_error_paths_witness :
    (envC6buf.sources_are_paths = false →
        init_reader_sync_f envC6buf (0, 2) 1 = RunResult.err PolarsErrKind.nyi)
    ∧ (envC6buf.sources_are_paths = true → envC6buf.open_ok 0 = false →
        init_reader_sync_f envC6buf (0, 2) 1 = RunResult.panic)
    ∧ (envC6buf.sources_are_paths = true → envC6buf.open_ok 0 = true →
        envC6buf.projection_ok 0 = false →
        init_reader_sync_f envC6buf (0, 2) 1
          = RunResult.err PolarsErrKind.schemaMismatch)
    ∧ (envC6buf.sources_are_paths = true → envC6buf.open_ok 0 = true →
        envC6buf.projection_ok 0 = true → envC6buf.num_rows_ok 0 = false →
        init_reader_sync_f envC6buf (0, 2) 1 = RunResult.panic) :=
  c6_sync_error_paths envC6buf 0 (0, 2) (1, 2) 1 (by decide)
    (fun sl hsl => by
      have : sl = (0, 5) := by
        have h := hsl
        simp [envC6buf] at h
        exact h.symm
      rw [this]
      omega)
